import Mathlib

/-!
# tagtools: `conv_cpp` (src/filter_tools.cpp)

`conv_cpp(a, b, shape)` checks `shape` against the three literals "full", "same"
and "valid", stops with a fixed message when it is none of them, and otherwise
returns `arma::conv(a, b, shape.c_str())`.

The embedding keeps the two steps apart. The shape check and the hand-over are
translated from the C++ body. The convolution routine itself belongs to
Armadillo and is passed to `conv_cpp` as an argument, so that every statement
about the wrapper holds for whatever the library does.

`arma::vec` holds doubles; sequences are lists over a commutative semiring
(exact arithmetic), and a call that throws is an `Except.error` carrying the
message. Rounding is not modelled, so nothing is stated here that would depend
on the order in which the library adds up its products.

Of the library routine only the shape "full" is given a model, written from the
specification (`conv_full`, `arma_conv`). The source does not say what the
library returns for "same" or "valid", for empty operands, or when it throws,
and nothing is assumed about those here.
-/

set_option autoImplicit false

namespace Tagtools

variable {α : Type}

/-! ## The wrapper -/

/-- The type of the library convolution routine `arma::conv(a, b, shape)`:
two vectors and a shape string in, a vector or a thrown error out. -/
abbrev ConvRoutine (α : Type) : Type :=
  List α → List α → String → Except String (List α)

/-- One evaluation of `conv_cpp`: what the call yields, and the argument triples
with which the library routine was entered during the call, oldest first. -/
structure Run (α : Type) where
  result : Except String (List α)
  calls : List (List α × List α × String)

/-- The text given to `Rcpp::stop` on line 18. -/
def shapeMessage : String := "Shape must be 'full', 'same', or 'valid'."

/-- The condition of the `if` on line 17:
`shape != "full" && shape != "same" && shape != "valid"`. -/
def shapeRejected (shape : String) : Prop :=
  shape ≠ "full" ∧ shape ≠ "same" ∧ shape ≠ "valid"

instance (shape : String) : Decidable (shapeRejected shape) := by
  unfold shapeRejected
  infer_instance

/-- `conv_cpp` of filter_tools.cpp, lines 14-21. `conv` stands for `arma::conv`.
In C++ `shape` defaults to "full"; here it is always given. -/
def conv_cpp (conv : ConvRoutine α) (a b : List α) (shape : String) : Run α :=
  if shapeRejected shape then
    { result := Except.error shapeMessage, calls := [] }
  else
    { result := conv a b shape, calls := [(a, b, shape)] }

/-- The error text contains `s` as a contiguous piece. -/
def carries (msg s : String) : Prop := s.toList <:+: msg.toList

instance (msg s : String) : Decidable (carries msg s) := by
  unfold carries
  infer_instance

/-! ## The library routine, shape "full" -/

section Convolution

variable [CommSemiring α]

/-- Modelled from the spec: element `k` of the linear convolution of section 4.1,
standing for what Armadillo's `arma::conv` (not in the sources) puts at index `k`.
By direct evaluation, the products `a[i] * b[k - i]` are added up over the `i`
with `0 ≤ i < n` and `0 ≤ k - i < m`. The indices met are in range, so the
default of `getD` is never read. -/
def convCoeff (a b : List α) (k : ℕ) : α :=
  (((List.range a.length).filter fun i => decide (i ≤ k ∧ k - i < b.length)).map
    fun i => a.getD i 0 * b.getD (k - i) 0).sum

/-- Modelled from the spec: the full linear convolution of section 4.1, standing
for what `arma::conv(a, b, "full")` computes; Armadillo's routine is not in the
sources. An empty operand gives the empty sequence; otherwise the result has
`n + m - 1` elements, element `k` being `convCoeff a b k`. -/
def conv_full (a b : List α) : List α :=
  if a.length = 0 ∨ b.length = 0 then []
  else (List.range (a.length + b.length - 1)).map (convCoeff a b)

/-- Modelled from the spec: `arma::conv` (Armadillo, not in the sources), for
the shape "full" only. What the library does for any other shape string is left
open: it is the argument `rest`. -/
def arma_conv (rest : ConvRoutine α) : ConvRoutine α := fun a b shape =>
  if shape = "full" then Except.ok (conv_full a b) else rest a b shape

end Convolution

/-- A library routine that returns the empty vector for every input. It is used
only to evaluate the wrapper at concrete rejected shapes, where the routine is
not entered. -/
def idleConv : ConvRoutine ℤ := fun _ _ _ => Except.ok []

/-! ## Facts about the wrapper -/

theorem conv_cpp_of_rejected (conv : ConvRoutine α) (a b : List α) (shape : String)
    (h : shapeRejected shape) :
    conv_cpp conv a b shape = { result := Except.error shapeMessage, calls := [] } := by
  unfold conv_cpp
  rw [if_pos h]

theorem conv_cpp_of_accepted (conv : ConvRoutine α) (a b : List α) (shape : String)
    (h : ¬ shapeRejected shape) :
    conv_cpp conv a b shape = { result := conv a b shape, calls := [(a, b, shape)] } := by
  unfold conv_cpp
  rw [if_neg h]

theorem full_not_rejected : ¬ shapeRejected "full" := by
  unfold shapeRejected
  simp

theorem bogus_rejected : shapeRejected "bogus" := by
  unfold shapeRejected
  decide

/-- C2: for every `a`, every `b` (empty ones included) and every shape that is
none of "full", "same", "valid", `conv_cpp` ends in an error and the library
convolution is not entered at all, whatever that routine is. -/
theorem conv_cpp_rejects_before_convolving (conv : ConvRoutine α) (a b : List α)
    (shape : String)
    (h : shape ≠ "full" ∧ shape ≠ "same" ∧ shape ≠ "valid") :
    (∃ msg, (conv_cpp conv a b shape).result = Except.error msg) ∧
      (conv_cpp conv a b shape).calls = [] := by
  have hr : shapeRejected shape := h
  rw [conv_cpp_of_rejected conv a b shape hr]
  exact ⟨⟨shapeMessage, rfl⟩, rfl⟩

theorem conv_cpp_rejects_before_convolving_witness :
    ("bogus" ≠ "full" ∧ "bogus" ≠ "same" ∧ "bogus" ≠ "valid") ∧
      ((∃ msg, (conv_cpp idleConv [1, 2, 3] [] "bogus").result = Except.error msg) ∧
        (conv_cpp idleConv [1, 2, 3] [] "bogus").calls = []) :=
  ⟨by decide, conv_cpp_rejects_before_convolving idleConv [1, 2, 3] [] "bogus" (by decide)⟩

/-- C10, as stated, fails: the shape "bogus" is rejected, and the error raised
for it is the fixed text of line 18, in which "bogus" does not occur. -/
theorem conv_cpp_error_omits_shape :
    shapeRejected "bogus" ∧
      (conv_cpp idleConv [1, 2, 3] [4, 5] "bogus").result =
        Except.error "Shape must be 'full', 'same', or 'valid'." ∧
      ¬ carries "Shape must be 'full', 'same', or 'valid'." "bogus" := by
  refine ⟨bogus_rejected, ?_, ?_⟩
  · rw [conv_cpp_of_rejected idleConv _ _ "bogus" bogus_rejected]
    rfl
  · decide

/-- C10, amended: every rejected shape is answered with one and the same error,
the literal text "Shape must be 'full', 'same', or 'valid'.", which names the
three legal values and does not depend on the inputs. -/
theorem conv_cpp_error_is_fixed (conv : ConvRoutine α) (a b : List α) (shape : String)
    (h : shapeRejected shape) :
    (conv_cpp conv a b shape).result =
      Except.error "Shape must be 'full', 'same', or 'valid'." := by
  rw [conv_cpp_of_rejected conv a b shape h]
  rfl

theorem conv_cpp_error_is_fixed_witness :
    shapeRejected "valid " ∧
      (conv_cpp idleConv [1] [2] "valid ").result =
        Except.error "Shape must be 'full', 'same', or 'valid'." :=
  ⟨by unfold shapeRejected; decide,
    conv_cpp_error_is_fixed idleConv [1] [2] "valid " (by unfold shapeRejected; decide)⟩

/-! ## The full convolution -/

section FullConvolution

variable [CommSemiring α]

theorem convCoeff_eq_sum (a b : List α) (k : ℕ) :
    convCoeff a b k =
      ∑ i ∈ (Finset.range a.length).filter (fun i => i ≤ k ∧ k - i < b.length),
        a.getD i 0 * b.getD (k - i) 0 := by
  unfold convCoeff
  rw [← List.sum_toFinset _ ((List.nodup_range a.length).filter _)]
  apply Finset.sum_congr _ (fun _ _ => rfl)
  ext i
  simp

theorem convCoeff_one (a : List α) (k : ℕ) (hk : k < a.length) :
    convCoeff a [1] k = a.getD k 0 := by
  rw [convCoeff_eq_sum]
  have hs : (Finset.range a.length).filter (fun i => i ≤ k ∧ k - i < [(1 : α)].length)
      = {k} := by
    ext i
    simp only [Finset.mem_filter, Finset.mem_range, Finset.mem_singleton, List.length_singleton]
    omega
  rw [hs, Finset.sum_singleton]
  simp

theorem conv_full_one (a : List α) : conv_full a [1] = a := by
  unfold conv_full
  by_cases h : a.length = 0
  · rw [if_pos (Or.inl h)]
    exact (List.length_eq_zero.mp h).symm
  · rw [if_neg (by simpa using h)]
    apply List.ext_getElem
    · simp
    · intro k h1 h2
      simp only [List.getElem_map, List.getElem_range]
      rw [convCoeff_one a k h2]
      exact List.getD_eq_getElem a 0 h2

theorem conv_cpp_full (rest : ConvRoutine α) (a b : List α) :
    (conv_cpp (arma_conv rest) a b "full").result = Except.ok (conv_full a b) := by
  rw [conv_cpp_of_accepted _ a b "full" full_not_rejected]
  simp [arma_conv]

theorem conv_full_length (a b : List α) (ha : a ≠ []) (hb : b ≠ []) :
    (conv_full a b).length = a.length + b.length - 1 := by
  unfold conv_full
  have h : ¬ (a.length = 0 ∨ b.length = 0) := by
    simp only [List.length_eq_zero]
    tauto
  rw [if_neg h]
  simp

theorem conv_full_getD (a b : List α) (ha : a ≠ []) (hb : b ≠ []) (k : ℕ)
    (hk : k < a.length + b.length - 1) :
    (conv_full a b).getD k 0 = convCoeff a b k := by
  have hlen : k < (conv_full a b).length := by
    rw [conv_full_length a b ha hb]
    exact hk
  rw [List.getD_eq_getElem _ 0 hlen]
  unfold conv_full
  have h : ¬ (a.length = 0 ∨ b.length = 0) := by
    simp only [List.length_eq_zero]
    tauto
  simp only [if_neg h, List.getElem_map, List.getElem_range]

/-- The concrete scenario of the spec, section 8, for the shape "full":
`[1, 2, 3]` convolved with `[0, 1, 0.5]` is `[0, 1, 2.5, 4, 1.5]`. -/
theorem conv_full_scenario :
    conv_full ([1, 2, 3] : List ℚ) [0, 1, 1 / 2] = [0, 1, 5 / 2, 4, 3 / 2] := by
  norm_num [conv_full, convCoeff, List.range, List.range.loop, List.filter]

/-- C1: for non-empty `a` (length `n`) and `b` (length `m`), `conv_cpp(a, b, "full")`
returns a sequence `c` of length `n + m - 1` whose element `k`, for every
`k < n + m - 1`, is the sum of `a[i] * b[k - i]` over the `i` with `0 ≤ i < n`
and `0 ≤ k - i < m`, in exact arithmetic. -/
theorem conv_cpp_full_is_convolution (rest : ConvRoutine α) (a b : List α)
    (ha : a ≠ []) (hb : b ≠ []) :
    ∃ c, (conv_cpp (arma_conv rest) a b "full").result = Except.ok c ∧
      c.length = a.length + b.length - 1 ∧
      ∀ k, k < a.length + b.length - 1 →
        c.getD k 0 =
          ∑ i ∈ (Finset.range a.length).filter (fun i => i ≤ k ∧ k - i < b.length),
            a.getD i 0 * b.getD (k - i) 0 := by
  refine ⟨conv_full a b, conv_cpp_full rest a b, conv_full_length a b ha hb, ?_⟩
  intro k hk
  rw [conv_full_getD a b ha hb k hk, convCoeff_eq_sum]

theorem conv_cpp_full_is_convolution_witness :
    ([1, 2, 3] : List ℤ) ≠ [] ∧ ([0, 1, 2] : List ℤ) ≠ [] ∧
      ∃ c, (conv_cpp (arma_conv idleConv) [1, 2, 3] [0, 1, 2] "full").result = Except.ok c ∧
        c.length = [1, 2, 3].length + [0, 1, 2].length - 1 ∧
        ∀ k, k < [1, 2, 3].length + [0, 1, 2].length - 1 →
          c.getD k 0 =
            ∑ i ∈ (Finset.range [1, 2, 3].length).filter
                (fun i => i ≤ k ∧ k - i < [0, 1, 2].length),
              ([1, 2, 3] : List ℤ).getD i 0 * ([0, 1, 2] : List ℤ).getD (k - i) 0 :=
  ⟨by decide, by decide,
    conv_cpp_full_is_convolution idleConv [1, 2, 3] [0, 1, 2] (by decide) (by decide)⟩

/-- C7: for every sequence `a`, `conv_cpp(a, [1.0], "full")` returns `a`. -/
theorem conv_cpp_full_one (rest : ConvRoutine α) (a : List α) :
    (conv_cpp (arma_conv rest) a [1] "full").result = Except.ok a := by
  rw [conv_cpp_full rest a [1], conv_full_one a]

end FullConvolution

end Tagtools
